import Mathlib

/-
  Verification of the seed-store synchronization logic of
  blockchain-wallet (src/blockchain-wallet/src/app.rs).

  The embedding models:
  * the seed codec used on disk: `hex::encode` / `hex::decode`
    (lowercase-hex writer, case-insensitive reader over byte pairs);
  * `App::load_wallets_from_file`, `App::load_seeds`,
    `App::save_wallet_to_file`, `App::check_for_updates`,
    `App::generate_random_wallet`, `App::press_button`
    and the error-propagation structure of `App::run`;
  * the render-side button text selection of `App::render`.

  A file is modelled as a list of lines (each a list of characters),
  `Option` distinguishing a missing file.  Clock instants and file
  modification timestamps are modelled as naturals.  Entropy is an
  `Option` holding the bytes `try_fill_bytes` would write on success;
  `none` is a failed fill, which leaves the zero-initialised buffer
  untouched.  A fallible write is modelled by a boolean.
-/

namespace WalletApp

abbrev Byte := Fin 256

inductive IoError where
  | invalidData
  | other
deriving DecidableEq

/-- One line of the keys file, as a sequence of characters. -/
abbrev FileLine := List Char

abbrev FileLines := List FileLine

/-- Lower-nibble to character table of `hex::encode`: `0`-`9` then `a`-`f`. -/
def hexCharOf (d : Fin 16) : Char :=
  if d.val < 10 then Char.ofNat (48 + d.val) else Char.ofNat (87 + d.val)

/-- `hex::encode` of one byte: high nibble then low nibble, lowercase. -/
def encodeByte (b : Byte) : List Char :=
  [hexCharOf ⟨b.val / 16, by have := b.isLt; omega⟩,
   hexCharOf ⟨b.val % 16, by have := b.isLt; omega⟩]

/-- `hex::encode` over a byte string. -/
def hexEncode : List Byte → List Char
  | [] => []
  | b :: rest => encodeByte b ++ hexEncode rest

/-- Value of one character under `hex::decode`: digits, lowercase and
uppercase letters are accepted, anything else is rejected. -/
def hexDigitToNat (c : Char) : Option (Fin 16) :=
  if h : 48 ≤ c.toNat ∧ c.toNat ≤ 57 then some ⟨c.toNat - 48, by omega⟩
  else if h2 : 97 ≤ c.toNat ∧ c.toNat ≤ 102 then some ⟨c.toNat - 87, by omega⟩
  else if h3 : 65 ≤ c.toNat ∧ c.toNat ≤ 70 then some ⟨c.toNat - 55, by omega⟩
  else none

def mkByte (hi lo : Fin 16) : Byte :=
  ⟨16 * hi.val + lo.val, by have := hi.isLt; have := lo.isLt; omega⟩

/-- `hex::decode`: consumes characters two at a time; fails on an odd
length or on any character that is not a hexadecimal digit. -/
def hexDecode : List Char → Option (List Byte)
  | [] => some []
  | [_] => none
  | c1 :: c2 :: rest =>
    match hexDigitToNat c1, hexDigitToNat c2, hexDecode rest with
    | some hi, some lo, some bs => some (mkByte hi lo :: bs)
    | _, _, _ => none

/-- ASCII whitespace recognised by `str::trim` (the file format is ASCII,
so the ASCII subset of Unicode whitespace suffices for this model). -/
def rustIsWhitespace (c : Char) : Bool :=
  c == ' ' || c == '\t' || c == '\n' || c == '\r'

/-- `str::trim`: strip whitespace from both ends of a line. -/
def rustTrim (l : List Char) : List Char :=
  ((l.dropWhile rustIsWhitespace).reverse.dropWhile rustIsWhitespace).reverse

/-- Characters `hex::encode` may produce: `0`-`9` and `a`-`f`. -/
def isLowerHex (c : Char) : Bool :=
  (48 ≤ c.toNat && c.toNat ≤ 57) || (97 ≤ c.toNat && c.toNat ≤ 102)

-- Basic codec lemmas

theorem hexDigitToNat_hexCharOf :
    ∀ d : Fin 16, hexDigitToNat (hexCharOf d) = some d := by decide

theorem isLowerHex_hexCharOf :
    ∀ d : Fin 16, isLowerHex (hexCharOf d) = true := by decide

theorem mkByte_split (b : Byte) :
    mkByte ⟨b.val / 16, by have := b.isLt; omega⟩
      ⟨b.val % 16, by have := b.isLt; omega⟩ = b := by
  apply Fin.ext
  simp only [mkByte]
  omega

theorem hexDecode_encodeByte (b : Byte) (rest : List Char) :
    hexDecode (encodeByte b ++ rest) = (hexDecode rest).map (b :: ·) := by
  simp only [encodeByte, List.cons_append, List.nil_append, hexDecode,
    hexDigitToNat_hexCharOf]
  cases h : hexDecode rest with
  | none => simp [h]
  | some bs => simp [h, mkByte_split b]

theorem hexDecode_hexEncode (bs : List Byte) :
    hexDecode (hexEncode bs) = some bs := by
  induction bs with
  | nil => rfl
  | cons b rest ih => simp [hexEncode, hexDecode_encodeByte, ih]

theorem hexEncode_length (bs : List Byte) :
    (hexEncode bs).length = 2 * bs.length := by
  induction bs with
  | nil => rfl
  | cons b rest ih => simp [hexEncode, encodeByte, ih]; omega

theorem hexEncode_mem_lowerHex (bs : List Byte) :
    ∀ c ∈ hexEncode bs, isLowerHex c = true := by
  induction bs with
  | nil => intro c hc; simp [hexEncode] at hc
  | cons b rest ih =>
    intro c hc
    simp only [hexEncode, List.mem_append] at hc
    rcases hc with hc | hc
    · simp only [encodeByte, List.mem_cons, List.not_mem_nil, or_false] at hc
      rcases hc with rfl | rfl <;> exact isLowerHex_hexCharOf _
    · exact ih c hc

theorem lowerHex_not_ws (c : Char) (h : isLowerHex c = true) :
    rustIsWhitespace c = false := by
  cases hw : rustIsWhitespace c with
  | false => rfl
  | true =>
    exfalso
    simp only [rustIsWhitespace, Bool.or_eq_true, beq_iff_eq] at hw
    rcases hw with ((rfl | rfl) | rfl) | rfl <;> simp [isLowerHex] at h

theorem rustTrim_eq_self (l : List Char)
    (h : ∀ c ∈ l, rustIsWhitespace c = false) : rustTrim l = l := by
  have hdrop : ∀ m : List Char, (∀ c ∈ m, rustIsWhitespace c = false) →
      m.dropWhile rustIsWhitespace = m := by
    intro m hm
    cases m with
    | nil => rfl
    | cons c t =>
      rw [List.dropWhile_cons]
      simp [hm c (List.mem_cons_self c t)]
  rw [rustTrim, hdrop l h, hdrop l.reverse (by intro c hc; exact h c (List.mem_reverse.mp hc)),
    List.reverse_reverse]

-- App state and file operations (app.rs)

/-- State of `App` (app.rs lines 23-37).  `keys_path` is fixed for the
process lifetime and is left implicit: the file operations take the
file's contents directly. -/
structure AppState where
  running : Bool
  button_pressed : Bool
  seeds : List (List Byte)
  last_check : Option Nat
  last_modified : Option Nat
deriving DecidableEq

/-- `App::new` (app.rs lines 48-57). -/
def app_new : AppState :=
  { running := true, button_pressed := false, seeds := [],
    last_check := none, last_modified := none }

/-- Filesystem as seen through one observation: the keys file's contents
(`none` when the file does not exist), whether the `metadata` and
`modified` calls succeed, and the observed modification timestamp. -/
structure FsEnv where
  file : Option FileLines
  metadataOk : Bool
  modifiedOk : Bool
  mtime : Nat
deriving DecidableEq

/-- Loop body of `App::load_wallets_from_file` (app.rs lines 142-165):
trimmed-blank lines are skipped; every other line is hex-decoded as
read (untrimmed) and must give exactly 32 bytes, else the whole load
fails with `InvalidData`. -/
def loadLines : FileLines → Except IoError (List (List Byte))
  | [] => .ok []
  | l :: ls =>
    if (rustTrim l).isEmpty then loadLines ls
    else
      match hexDecode l with
      | none => .error .invalidData
      | some bs =>
        if bs.length = 32 then
          match loadLines ls with
          | .ok rest => .ok (bs :: rest)
          | .error e => .error e
        else .error .invalidData

/-- `App::load_wallets_from_file` (app.rs lines 130-166): a missing file
is an empty list, not an error. -/
def load_wallets_from_file (file : Option FileLines) :
    Except IoError (List (List Byte)) :=
  match file with
  | none => .ok []
  | some lines => loadLines lines

/-- `App::load_seeds` (app.rs lines 168-179): on success the in-memory
list is replaced; on failure the error is reported and re-raised and
`self.seeds` is left untouched. -/
def load_seeds (s : AppState) (file : Option FileLines) :
    Except IoError Unit × AppState :=
  match load_wallets_from_file file with
  | .ok seeds => (.ok (), { s with seeds := seeds })
  | .error e => (.error e, s)

/-- Outcome of one `check_for_updates` call: the returned `Result`,
whether `load_seeds` (a full file read) was invoked, and the state of
`self` afterwards. -/
structure RefreshOut where
  res : Except IoError Unit
  didLoad : Bool
  state : AppState

/-- Body of `App::check_for_updates` after the rate-limit gate
(app.rs lines 86-101): a missing file is a no-op; `metadata` or
`modified` failures are printed and swallowed; an absent or different
watermark updates the watermark and reloads via `load_seeds`, whose
failure propagates through `?`. -/
def check_core (s : AppState) (env : FsEnv) : RefreshOut :=
  match env.file with
  | none => ⟨.ok (), false, s⟩
  | some _ =>
    if env.metadataOk then
      if env.modifiedOk then
        if s.last_modified.isNone ∨ s.last_modified ≠ some env.mtime then
          let s1 := { s with last_modified := some env.mtime }
          match load_seeds s1 env.file with
          | (.ok _, s2) => ⟨.ok (), true, s2⟩
          | (.error e, s2) => ⟨.error e, true, s2⟩
        else ⟨.ok (), false, s⟩
      else ⟨.ok (), false, s⟩
    else ⟨.ok (), false, s⟩

/-- `App::check_for_updates` (app.rs lines 75-104): returns immediately
when less than 100 ms elapsed since the last check, else records the
check time and runs the watermark comparison. -/
def check_for_updates (s : AppState) (env : FsEnv) (now : Nat) : RefreshOut :=
  match s.last_check with
  | some lc =>
    if now - lc < 100 then ⟨.ok (), false, s⟩
    else check_core { s with last_check := some now } env
  | none => check_core { s with last_check := some now } env

/-- One iteration of the `while self.running` loop of `App::run`
(app.rs lines 64-71) restricted to the refresh step: the `?` on
`self.check_for_updates()` propagates any error out of `run`,
terminating the loop. -/
def run_step (s : AppState) (env : FsEnv) (now : Nat) :
    Except IoError AppState :=
  match (check_for_updates s env now).res with
  | .ok _ => .ok (check_for_updates s env now).state
  | .error e => .error e

-- Wallet generation (app.rs lines 106-128, 269-276)

def zeroSeed : List Byte := List.replicate 32 (0 : Byte)

/-- SS58 address derived from a seed.  `Sr25519Pair::from_seed` and
`to_ss58check` (sp_core) are an external deterministic capability; the
model keeps the seed they were applied to. -/
structure Ss58Address where
  seed : List Byte
deriving DecidableEq

def derive_address (seed : List Byte) : Ss58Address := ⟨seed⟩

/-- `App::generate_random_wallet` (app.rs lines 106-116): the buffer is
zero-initialised and `try_fill_bytes`'s result is discarded with
`let _ =`, so a failed fill (`entropy = none`) leaves the all-zero
seed, which is then used to derive the pair and address. -/
def generate_random_wallet (entropy : Option (List Byte)) :
    Ss58Address × List Byte :=
  let seed := match entropy with
    | some bs => bs
    | none => zeroSeed
  (derive_address seed, seed)

/-- `App::save_wallet_to_file` (app.rs lines 118-128): append-create
the file and write `hex::encode(seed)` as one new line.  `writeOk`
models whether the open/write succeeds. -/
def save_wallet_to_file (file : Option FileLines) (seed : List Byte)
    (writeOk : Bool) : Except IoError (Option FileLines) :=
  if writeOk then .ok (some ((file.getD []) ++ [hexEncode seed]))
  else .error .other

/-- `App::press_button` (app.rs lines 269-276): sets `button_pressed`,
generates a wallet, and appends the seed to the file; a save failure is
printed and swallowed.  Neither `self.seeds` nor `self.last_modified`
is touched. -/
def press_button (s : AppState) (entropy : Option (List Byte))
    (file : Option FileLines) (writeOk : Bool) :
    AppState × Option FileLines :=
  let s1 := { s with button_pressed := true }
  let g := generate_random_wallet entropy
  match save_wallet_to_file file g.2 writeOk with
  | .ok newFile => (s1, newFile)
  | .error _ => (s1, file)

/-- The two button captions of `App::render` (app.rs lines 217-221). -/
inductive ButtonMsg where
  | generated
  | prompt
deriving DecidableEq

/-- Caption selection of `App::render` (app.rs lines 217-221). -/
def render_button_text (s : AppState) : ButtonMsg :=
  if s.button_pressed then .generated else .prompt

/-- Sequential appends of seeds starting from a given file state, each
through the append-create path of `save_wallet_to_file` with a
succeeding write. -/
def appendSeeds (file : Option FileLines) : List (List Byte) → Option FileLines
  | [] => file
  | s :: rest => appendSeeds (some ((file.getD []) ++ [hexEncode s])) rest

/-- A line on which the decode step of `load_wallets_from_file` fails:
malformed hex, or hex of a byte length other than 32. -/
def lineFails (l : FileLine) : Bool :=
  match hexDecode l with
  | none => true
  | some bs => bs.length != 32

def oneSeed : List Byte := List.replicate 32 (1 : Byte)

-- Load lemmas

theorem loadLines_error_of_bad (ls : FileLines)
    (h : ∃ l ∈ ls, (rustTrim l).isEmpty = false ∧ lineFails l = true) :
    loadLines ls = .error .invalidData := by
  induction ls with
  | nil => simp at h
  | cons l ls ih =>
    rw [loadLines]
    by_cases hblank : (rustTrim l).isEmpty
    · rw [if_pos hblank]
      apply ih
      rcases h with ⟨b, hb, hnb, hbad⟩
      rcases List.mem_cons.mp hb with rfl | hbl
      · simp [hnb] at hblank
      · exact ⟨b, hbl, hnb, hbad⟩
    · rw [if_neg hblank]
      cases hd : hexDecode l with
      | none => rfl
      | some bs =>
        by_cases hlen : bs.length = 32
        · have hrest : loadLines ls = .error .invalidData := by
            apply ih
            rcases h with ⟨b, hb, hnb, hbad⟩
            rcases List.mem_cons.mp hb with rfl | hbl
            · simp [lineFails, hd, hlen] at hbad
            · exact ⟨b, hbl, hnb, hbad⟩
          simp [hlen, hrest]
        · simp [hlen]

theorem appendSeeds_some (seeds : List (List Byte)) :
    ∀ f : FileLines, appendSeeds (some f) seeds = some (f ++ seeds.map hexEncode) := by
  induction seeds with
  | nil => intro f; simp [appendSeeds]
  | cons s rest ih => intro f; simp [appendSeeds, ih]

theorem hexEncode_trim_nonblank (s : List Byte) (h : s.length = 32) :
    (rustTrim (hexEncode s)).isEmpty = false := by
  rw [rustTrim_eq_self _ (fun c hc => lowerHex_not_ws c (hexEncode_mem_lowerHex s c hc))]
  have hlen : (hexEncode s).length = 64 := by rw [hexEncode_length, h]
  cases hEq : hexEncode s with
  | nil => rw [hEq] at hlen; simp at hlen
  | cons c t => rfl

theorem loadLines_map_hexEncode (seeds : List (List Byte))
    (h : ∀ s ∈ seeds, s.length = 32) :
    loadLines (seeds.map hexEncode) = .ok seeds := by
  induction seeds with
  | nil => rfl
  | cons s rest ih =>
    have hs : s.length = 32 := h s (List.mem_cons_self s rest)
    have hne := hexEncode_trim_nonblank s hs
    have hrest := ih (fun x hx => h x (List.mem_cons_of_mem s hx))
    rw [List.map_cons, loadLines, if_neg (by simp [hne])]
    simp [hexDecode_hexEncode, hs, hrest]

-- Claim theorems

/-- C1 (code_bug evaluation): when the entropy fill fails, the code does
not abort the generate request: `generate_random_wallet` returns the
all-zero seed and derives the address from it, and `press_button`
appends the zero seed's hex line to the keys file (the in-memory list
alone is untouched, as `press_button` never writes it). -/
theorem C1_entropy_failure_zeroed_seed :
    (generate_random_wallet none).2 = zeroSeed ∧
    (generate_random_wallet none).1 = derive_address zeroSeed ∧
    (press_button app_new none (some []) true).2 = some [hexEncode zeroSeed] ∧
    (press_button app_new none (some []) true).1.seeds = app_new.seeds :=
  ⟨rfl, rfl, rfl, rfl⟩

/-- C4: for every 32-byte value `s`, the encoding is a lowercase
hexadecimal line of exactly 64 characters with no surrounding
whitespace, and decoding the encoding gives back `s`. -/
theorem C4_encode_decode_roundtrip (s : List Byte) (h : s.length = 32) :
    (hexEncode s).length = 64 ∧
    (∀ c ∈ hexEncode s, isLowerHex c = true) ∧
    rustTrim (hexEncode s) = hexEncode s ∧
    hexDecode (hexEncode s) = some s := by
  refine ⟨?_, hexEncode_mem_lowerHex s, ?_, hexDecode_hexEncode s⟩
  · rw [hexEncode_length, h]
  · exact rustTrim_eq_self _ fun c hc => lowerHex_not_ws c (hexEncode_mem_lowerHex s c hc)

theorem C4_witness :
    zeroSeed.length = 32 ∧
    ((hexEncode zeroSeed).length = 64 ∧
     (∀ c ∈ hexEncode zeroSeed, isLowerHex c = true) ∧
     rustTrim (hexEncode zeroSeed) = hexEncode zeroSeed ∧
     hexDecode (hexEncode zeroSeed) = some zeroSeed) :=
  ⟨by decide, C4_encode_decode_roundtrip zeroSeed (by decide)⟩

/-- C5: a file with at least one non-blank line whose decode fails makes
the whole load fail with `InvalidData`; no partial sequence is returned,
and `load_seeds` leaves the previous in-memory sequence unchanged. -/
theorem C5_load_rejects_malformed (s : AppState) (ls : FileLines)
    (h : ∃ l ∈ ls, (rustTrim l).isEmpty = false ∧ lineFails l = true) :
    loadLines ls = .error .invalidData ∧
    (load_seeds s (some ls)).1 = .error .invalidData ∧
    (load_seeds s (some ls)).2.seeds = s.seeds := by
  have hE := loadLines_error_of_bad ls h
  refine ⟨hE, ?_, ?_⟩ <;> simp [load_seeds, load_wallets_from_file, hE]

theorem C5_witness :
    (∃ l ∈ [['z', 'z']], (rustTrim l).isEmpty = false ∧ lineFails l = true) ∧
    (loadLines [['z', 'z']] = .error .invalidData ∧
     (load_seeds app_new (some [['z', 'z']])).1 = .error .invalidData ∧
     (load_seeds app_new (some [['z', 'z']])).2.seeds = app_new.seeds) :=
  ⟨by decide, C5_load_rejects_malformed app_new [['z', 'z']] (by decide)⟩

/-- C6 counterexample: a record padded with a leading space fails the
load (the code hex-decodes the untrimmed line), while the same file with
the whitespace stripped loads fine — the claim's whitespace-insensitivity
is false. -/
theorem C6_counterexample :
    loadLines [' ' :: hexEncode zeroSeed] = .error .invalidData ∧
    loadLines [hexEncode zeroSeed] = .ok [zeroSeed] :=
  ⟨rfl, rfl⟩

/-- C6 (amended): a line that is blank after trimming is skipped rather
than an error, so a file with blank lines interleaved between records
loads to the same result as the file with the blank lines stripped;
non-blank lines, however, are decoded without trimming. -/
theorem C6_blank_lines_skipped (ls : FileLines) :
    loadLines ls = loadLines (ls.filter (fun l => !(rustTrim l).isEmpty)) := by
  induction ls with
  | nil => rfl
  | cons l ls ih =>
    by_cases hblank : (rustTrim l).isEmpty
    · rw [List.filter_cons_of_neg (by simp [hblank]), loadLines, if_pos hblank]
      exact ih
    · rw [List.filter_cons_of_pos (by simp [hblank])]
      simp only [loadLines]
      rw [if_neg hblank, if_neg hblank, ih]

/-- C7 counterexample: appending one seed to the empty store's file leaves
the in-memory list empty while a fresh load of the file yields that seed,
so the loaded sequence differs from what the store holds in memory. -/
theorem C7_counterexample :
    (press_button app_new (some oneSeed) (some []) true).1.seeds = [] ∧
    load_wallets_from_file (press_button app_new (some oneSeed) (some []) true).2 =
      .ok [oneSeed] :=
  ⟨rfl, rfl⟩

/-- C7 (amended): appending `n` seeds sequentially to an empty store's
file and then performing a fresh load yields exactly those `n` seeds in
insertion order (file line order equals insertion order); the store's
in-memory list is not updated by the appends themselves. -/
theorem C7_append_then_load (seeds : List (List Byte))
    (h : ∀ s ∈ seeds, s.length = 32) :
    load_wallets_from_file (appendSeeds none seeds) = .ok seeds := by
  cases seeds with
  | nil => rfl
  | cons s rest =>
    rw [appendSeeds, appendSeeds_some]
    show loadLines ((none : Option FileLines).getD [] ++ [hexEncode s] ++ rest.map hexEncode) = _
    show loadLines ([] ++ [hexEncode s] ++ rest.map hexEncode) = _
    rw [List.nil_append]
    show loadLines ((s :: rest).map hexEncode) = _
    exact loadLines_map_hexEncode _ h

theorem C7_witness :
    (∀ s ∈ [oneSeed, zeroSeed], s.length = 32) ∧
    load_wallets_from_file (appendSeeds none [oneSeed, zeroSeed]) =
      .ok [oneSeed, zeroSeed] :=
  ⟨by decide, C7_append_then_load [oneSeed, zeroSeed] (by decide)⟩

/-- C10: every generate request sets `button_pressed` regardless of
whether the append succeeds, so the rendered text is the generated
caption even when the write failed and the file is unchanged. -/
theorem C10_button_flag (s : AppState) (ent : Option (List Byte))
    (file : Option FileLines) (w : Bool) :
    (press_button s ent file w).1.button_pressed = true ∧
    render_button_text (press_button s ent file w).1 = .generated ∧
    (press_button s ent file false).2 = file := by
  cases w <;> simp [press_button, save_wallet_to_file, render_button_text]

-- Refresh lemmas

theorem check_core_watermark_eq (s : AppState) (env : FsEnv)
    (h : s.last_modified = some env.mtime) :
    check_core s env = ⟨.ok (), false, s⟩ := by
  obtain ⟨file, mOk, moOk, mt⟩ := env
  simp only at h
  unfold check_core
  cases file with
  | none => rfl
  | some lines =>
    cases mOk <;> cases moOk <;> simp [h]

theorem check_noop_of_watermark (s : AppState) (env : FsEnv) (now : Nat)
    (h : s.last_modified = some env.mtime) :
    (check_for_updates s env now).res = .ok () ∧
    (check_for_updates s env now).didLoad = false ∧
    (check_for_updates s env now).state.seeds = s.seeds ∧
    (check_for_updates s env now).state.last_modified = s.last_modified := by
  cases hlc : s.last_check with
  | none =>
    simp only [check_for_updates, hlc]
    rw [check_core_watermark_eq { s with last_check := some now } env h]
    exact ⟨rfl, rfl, rfl, rfl⟩
  | some lc =>
    by_cases ht : now - lc < 100
    · simp only [check_for_updates, hlc]
      rw [if_pos ht]
      exact ⟨rfl, rfl, rfl, rfl⟩
    · simp only [check_for_updates, hlc]
      rw [if_neg ht, check_core_watermark_eq { s with last_check := some now } env h]
      exact ⟨rfl, rfl, rfl, rfl⟩

theorem check_core_didLoad (s : AppState) (env : FsEnv) (lines : FileLines)
    (hf : env.file = some lines) (hm : env.metadataOk = true)
    (hmo : env.modifiedOk = true)
    (hwm : s.last_modified ≠ some env.mtime) :
    (check_core s env).didLoad = true := by
  obtain ⟨file, mOk, moOk, mt⟩ := env
  simp only at hf hm hmo hwm
  subst hf hm hmo
  unfold check_core
  simp only [hwm, or_true, ne_eq, not_false_eq_true, if_true]
  split <;> rfl

theorem check_first_call (s : AppState) (env : FsEnv) (now : Nat)
    (lines : FileLines) (ws : List (List Byte))
    (hlc : s.last_check = none) (hf : env.file = some lines)
    (hm : env.metadataOk = true) (hmo : env.modifiedOk = true)
    (hload : loadLines lines = .ok ws) :
    (check_for_updates s env now).res = .ok () ∧
    (check_for_updates s env now).state.last_modified = some env.mtime := by
  obtain ⟨file, mOk, moOk, mt⟩ := env
  simp only at hf hm hmo
  subst hf hm hmo
  simp only [check_for_updates, hlc]
  unfold check_core
  simp only
  by_cases hc : ({ s with last_check := some now } : AppState).last_modified.isNone ∨
      ({ s with last_check := some now } : AppState).last_modified ≠ some mt
  · rw [if_pos hc]
    simp [load_seeds, load_wallets_from_file, hload]
  · rw [if_neg hc]
    rcases not_or.mp hc with ⟨_, h2⟩
    rw [not_ne_iff] at h2
    exact ⟨rfl, h2⟩

-- C2

/-- C2 counterexample: with a corrupt line in the keys file, an executed
refresh step returns the load error through `?`, so the loop body of
`run` propagates it and the main loop terminates — refuting the claim
that an in-loop refresh failure never terminates the running process. -/
theorem C2_counterexample :
    run_step app_new
      { file := some [['z', 'z']], metadataOk := true, modifiedOk := true, mtime := 9 } 0 =
      .error .invalidData := rfl

/-- C2 (amended): failures of the `metadata` stat during a refresh are
reported and swallowed and the loop continues, but a failure of the
underlying load (e.g. a corrupt line) propagates out of
`check_for_updates` through `?` and terminates the running main loop. -/
theorem C2_load_failure_terminates (s : AppState) (env : FsEnv) (now : Nat)
    (lines : FileLines) (e : IoError)
    (hlc : s.last_check = none)
    (hf : env.file = some lines) (hm : env.metadataOk = true)
    (hmo : env.modifiedOk = true)
    (hwm : s.last_modified ≠ some env.mtime)
    (hload : loadLines lines = .error e) :
    run_step s env now = .error e ∧
    run_step s { env with metadataOk := false } now =
      .ok { s with last_check := some now } := by
  obtain ⟨file, mOk, moOk, mt⟩ := env
  simp only at hf hm hmo hwm
  subst hf hm hmo
  constructor
  · unfold run_step
    simp only [check_for_updates, hlc]
    unfold check_core
    simp only
    rw [if_pos (Or.inr hwm)]
    simp [load_seeds, load_wallets_from_file, hload]
  · unfold run_step
    simp only [check_for_updates, hlc]
    unfold check_core
    simp only [Bool.false_eq_true, if_false]

-- C3

/-- C3 counterexample: a successful append on a generate request leaves
both the watermark and the in-memory list untouched while the file gains
a line, and the immediately following refresh (observing the file's new
modification timestamp) performs a reload — refuting the claim that the
append updates the watermark and list so the next refresh is not treated
as an external change. -/
theorem C3_counterexample :
    let p := press_button { app_new with last_modified := some 5 }
      (some oneSeed) (some []) true
    p.1.last_modified = some 5 ∧ p.1.seeds = [] ∧
    p.2 = some [hexEncode oneSeed] ∧
    (check_for_updates p.1
      { file := p.2, metadataOk := true, modifiedOk := true, mtime := 6 } 0).didLoad =
      true :=
  ⟨rfl, rfl, rfl, rfl⟩

/-- C3 (amended): a successful append performed on a generate request
updates neither the store's watermark nor the in-memory seed list, so
the next refresh that observes the file's changed modification
timestamp treats it as an external change and reloads the file. -/
theorem C3_append_no_watermark_update (s : AppState) (ent : Option (List Byte))
    (file : Option FileLines) (env : FsEnv) (now : Nat) (lines : FileLines)
    (hlc : s.last_check = none) (hf : env.file = some lines)
    (hm : env.metadataOk = true) (hmo : env.modifiedOk = true)
    (hwm : s.last_modified ≠ some env.mtime) :
    (press_button s ent file true).1.seeds = s.seeds ∧
    (press_button s ent file true).1.last_modified = s.last_modified ∧
    (check_for_updates (press_button s ent file true).1 env now).didLoad = true := by
  obtain ⟨efile, mOk, moOk, mt⟩ := env
  simp only at hf hm hmo hwm
  subst hf hm hmo
  have hp : (press_button s ent file true).1 = { s with button_pressed := true } := by
    cases ent <;> rfl
  refine ⟨by rw [hp], by rw [hp], ?_⟩
  rw [hp]
  simp only [check_for_updates, hlc]
  exact check_core_didLoad _ _ lines rfl rfl rfl hwm

-- C8

/-- C8: once a refresh has completed against a file whose modification
timestamp then does not change, an immediately following refresh
performs no file read, returns success, and leaves the in-memory
sequence and the watermark unchanged. -/
theorem C8_watermark_stability (s : AppState) (env : FsEnv) (n1 n2 : Nat)
    (lines : FileLines) (ws : List (List Byte))
    (hlc : s.last_check = none) (hf : env.file = some lines)
    (hm : env.metadataOk = true) (hmo : env.modifiedOk = true)
    (hload : loadLines lines = .ok ws) :
    let r1 := check_for_updates s env n1
    let r2 := check_for_updates r1.state env n2
    r1.res = .ok () ∧ r2.didLoad = false ∧ r2.res = .ok () ∧
    r2.state.seeds = r1.state.seeds ∧
    r2.state.last_modified = r1.state.last_modified := by
  intro r1 r2
  obtain ⟨h1, h2⟩ := check_first_call s env n1 lines ws hlc hf hm hmo hload
  obtain ⟨g1, g2, g3, g4⟩ := check_noop_of_watermark r1.state env n2 h2
  exact ⟨h1, g2, g1, g3, g4⟩

-- C9: case-insensitivity of the decode path

/-- Lowercase image of a hexadecimal line: the spec-side notion of the
lowercase form of a record, mapping `A`-`F` to `a`-`f`. -/
def lowerChar (c : Char) : Char :=
  if c = 'A' then 'a' else if c = 'B' then 'b' else if c = 'C' then 'c'
  else if c = 'D' then 'd' else if c = 'E' then 'e' else if c = 'F' then 'f' else c

theorem hexDigitToNat_lowerChar (c : Char) :
    hexDigitToNat (lowerChar c) = hexDigitToNat c := by
  unfold lowerChar
  by_cases h1 : c = 'A'
  · subst h1; rfl
  rw [if_neg h1]
  by_cases h2 : c = 'B'
  · subst h2; rfl
  rw [if_neg h2]
  by_cases h3 : c = 'C'
  · subst h3; rfl
  rw [if_neg h3]
  by_cases h4 : c = 'D'
  · subst h4; rfl
  rw [if_neg h4]
  by_cases h5 : c = 'E'
  · subst h5; rfl
  rw [if_neg h5]
  by_cases h6 : c = 'F'
  · subst h6; rfl
  rw [if_neg h6]

theorem hexDecode_map_lowerChar : ∀ l : List Char,
    hexDecode (l.map lowerChar) = hexDecode l
  | [] => rfl
  | [c] => rfl
  | c1 :: c2 :: rest => by
    simp only [List.map_cons, hexDecode, hexDigitToNat_lowerChar,
      hexDecode_map_lowerChar rest]

theorem hexDigit_isSome_not_ws (c : Char)
    (h : (hexDigitToNat c).isSome = true) : rustIsWhitespace c = false := by
  cases hw : rustIsWhitespace c with
  | false => rfl
  | true =>
    exfalso
    simp only [rustIsWhitespace, Bool.or_eq_true, beq_iff_eq] at hw
    rcases hw with ((rfl | rfl) | rfl) | rfl <;> revert h <;> decide

theorem hexDecode_all_digits : ∀ (k : Nat) (l : List Char),
    l.length = 2 * k → (∀ c ∈ l, (hexDigitToNat c).isSome = true) →
    ∃ bs, hexDecode l = some bs ∧ bs.length = k := by
  intro k
  induction k with
  | zero =>
    intro l hl _
    have : l = [] := List.eq_nil_of_length_eq_zero (by omega)
    subst this
    exact ⟨[], rfl, rfl⟩
  | succ k ih =>
    intro l hl hd
    cases l with
    | nil => simp at hl
    | cons c1 t =>
      cases t with
      | nil => simp at hl; omega
      | cons c2 rest =>
        obtain ⟨d1, hd1⟩ := Option.isSome_iff_exists.mp
          (hd c1 (List.mem_cons_self _ _))
        obtain ⟨d2, hd2⟩ := Option.isSome_iff_exists.mp
          (hd c2 (List.mem_cons_of_mem _ (List.mem_cons_self _ _)))
        have hrl : rest.length = 2 * k := by
          simp only [List.length_cons] at hl; omega
        obtain ⟨bs, hbs, hbslen⟩ := ih rest hrl
          (fun c hc => hd c (List.mem_cons_of_mem _ (List.mem_cons_of_mem _ hc)))
        refine ⟨mkByte d1 d2 :: bs, ?_, by simp [hbslen]⟩
        simp [hexDecode, hd1, hd2, hbs]

/-- C9: a 64-character line of hexadecimal digits in any case (so in
particular uppercase or mixed case) is accepted by the load and decodes
to the same 32-byte seed as its lowercase form. -/
theorem C9_uppercase_accepted (l : FileLine)
    (hlen : l.length = 64)
    (hdig : ∀ c ∈ l, (hexDigitToNat c).isSome = true) :
    ∃ bs, bs.length = 32 ∧ loadLines [l] = .ok [bs] ∧
      loadLines [l.map lowerChar] = .ok [bs] := by
  obtain ⟨bs, hbs, hbslen⟩ := hexDecode_all_digits 32 l (by omega) hdig
  have hne : (rustTrim l).isEmpty = false := by
    rw [rustTrim_eq_self l (fun c hc => hexDigit_isSome_not_ws c (hdig c hc))]
    cases l with
    | nil => simp at hlen
    | cons c t => rfl
  have hnem : (rustTrim (l.map lowerChar)).isEmpty = false := by
    rw [rustTrim_eq_self (l.map lowerChar) ?_]
    · cases l with
      | nil => simp at hlen
      | cons c t => rfl
    · intro c hc
      obtain ⟨c0, hc0, rfl⟩ := List.mem_map.mp hc
      exact hexDigit_isSome_not_ws _ (by
        rw [hexDigitToNat_lowerChar]
        exact hdig c0 hc0)
  refine ⟨bs, hbslen, ?_, ?_⟩
  · simp [loadLines, hne, hbs, hbslen]
  · simp [loadLines, hnem, hexDecode_map_lowerChar, hbs, hbslen]

theorem C9_witness :
    (List.replicate 64 'A').length = 64 ∧
    (∀ c ∈ List.replicate 64 'A', (hexDigitToNat c).isSome = true) ∧
    (∃ bs, bs.length = 32 ∧ loadLines [List.replicate 64 'A'] = .ok [bs] ∧
      loadLines [(List.replicate 64 'A').map lowerChar] = .ok [bs]) :=
  ⟨by decide, by decide,
    C9_uppercase_accepted (List.replicate 64 'A') (by decide) (by decide)⟩

-- Remaining witnesses

theorem C2_witness :
    app_new.last_check = none ∧
    app_new.last_modified ≠ some 9 ∧
    loadLines [['z', 'z']] = .error .invalidData ∧
    (run_step app_new
        { file := some [['z', 'z']], metadataOk := true, modifiedOk := true,
          mtime := 9 } 0 = .error .invalidData ∧
     run_step app_new
        { file := some [['z', 'z']], metadataOk := false, modifiedOk := true,
          mtime := 9 } 0 = .ok { app_new with last_check := some 0 }) :=
  ⟨rfl, by decide, rfl,
    C2_load_failure_terminates app_new
      { file := some [['z', 'z']], metadataOk := true, modifiedOk := true,
        mtime := 9 } 0 [['z', 'z']] .invalidData rfl rfl rfl rfl (by decide) rfl⟩

theorem C3_witness :
    ({ app_new with last_modified := some 5 } : AppState).last_check = none ∧
    ({ app_new with last_modified := some 5 } : AppState).last_modified ≠ some 7 ∧
    ((press_button { app_new with last_modified := some 5 } none (some []) true).1.seeds =
        ({ app_new with last_modified := some 5 } : AppState).seeds ∧
     (press_button { app_new with last_modified := some 5 } none (some []) true).1.last_modified =
        ({ app_new with last_modified := some 5 } : AppState).last_modified ∧
     (check_for_updates
        (press_button { app_new with last_modified := some 5 } none (some []) true).1
        { file := some [], metadataOk := true, modifiedOk := true, mtime := 7 } 0).didLoad =
        true) :=
  ⟨rfl, by decide,
    C3_append_no_watermark_update { app_new with last_modified := some 5 } none
      (some []) { file := some [], metadataOk := true, modifiedOk := true, mtime := 7 }
      0 [] rfl rfl rfl rfl (by decide)⟩

theorem C8_witness :
    app_new.last_check = none ∧
    loadLines [hexEncode zeroSeed] = .ok [zeroSeed] ∧
    (let r1 := check_for_updates app_new
      { file := some [hexEncode zeroSeed], metadataOk := true, modifiedOk := true,
        mtime := 3 } 0
     let r2 := check_for_updates r1.state
      { file := some [hexEncode zeroSeed], metadataOk := true, modifiedOk := true,
        mtime := 3 } 50
     r1.res = .ok () ∧ r2.didLoad = false ∧ r2.res = .ok () ∧
     r2.state.seeds = r1.state.seeds ∧
     r2.state.last_modified = r1.state.last_modified) :=
  ⟨rfl, rfl,
    C8_watermark_stability app_new
      { file := some [hexEncode zeroSeed], metadataOk := true, modifiedOk := true,
        mtime := 3 } 0 50 [hexEncode zeroSeed] [zeroSeed] rfl rfl rfl rfl rfl⟩

end WalletApp
